import Mathlib

/-!
Formal model of the internal-portal logic of the Elf-AI website repository
(`src/routes/main.py` and `src/models.py`): task ordering, task/resource
normalization, resource faceted filtering, starter-plan generation, and the
internal messaging channels.  Python strings are modelled as `String`,
Python `int` as `Int`, `date` values as proleptic ordinals (`Nat`, with
`date.max.toordinal() = 3652059`), and timezone-aware `datetime` values as
`Nat` offsets from `datetime.min` (so `datetime.min` itself is `0`).
Nullable values are `Option`.
-/

namespace ElfAI

/-- Python `str.lower()`, character by character over the string's data. -/
def pyToLower (s : String) : String :=
  String.mk (s.data.map Char.toLower)

/-- Python `str.strip()` with no argument: drop whitespace from both ends. -/
def pyStrip (s : String) : String :=
  String.mk (((s.data.dropWhile Char.isWhitespace).reverse.dropWhile Char.isWhitespace).reverse)

/-- String helper modelling Python `value or ""` followed by `.strip().lower()`
as used inline in `_task_sort_key` and `InternalTask.sort_key`. -/
def normalizedOrEmpty (value : Option String) : String :=
  pyToLower (pyStrip (value.getD ""))

/-- Worker for Python `str.split()`: `acc` holds the current piece reversed;
empty pieces (whitespace runs, boundaries) are dropped. -/
def pySplitWsAux : List Char → List Char → List String
  | [], acc => if acc.isEmpty then [] else [String.mk acc.reverse]
  | c :: rest, acc =>
    if c.isWhitespace then
      (if acc.isEmpty then [] else [String.mk acc.reverse]) ++ pySplitWsAux rest []
    else pySplitWsAux rest (c :: acc)

/-- Python `str.split()` with no argument: split on whitespace runs, dropping
empty pieces. -/
def pySplitWs (s : String) : List String :=
  pySplitWsAux s.data []

/-- Python `" ".join(s.strip().split())`: collapse inner whitespace runs to
single spaces and strip the ends. -/
def collapseWhitespace (s : String) : String :=
  String.intercalate " " (pySplitWs (pyStrip s))

/-- Ordinal of Python `date.max` (9999-12-31), the sentinel used by the task
sort keys for a missing due date. -/
def DATE_MAX : Nat := 3652059

/-- Offset of `datetime.min.replace(tzinfo=timezone.utc)`, the sentinel used
by the task sort keys for a missing creation timestamp.  It is the least
value of the timestamp encoding. -/
def DATETIME_MIN : Nat := 0

/-- The `INTERNAL_TASK_PRIORITIES` tuple from `src/routes/main.py`. -/
def INTERNAL_TASK_PRIORITIES : List String := ["high", "medium", "low"]

/-- The `INTERNAL_TASK_STATUSES` tuple from `src/routes/main.py`. -/
def INTERNAL_TASK_STATUSES : List String := ["todo", "in-progress", "blocked", "done"]

/-- The `INTERNAL_TASK_PRIORITY_RANK` dict from `src/routes/main.py`
(equal to `InternalTask.PRIORITY_RANK` in `src/models.py`), as a partial map:
`none` models a key that is absent from the dict. -/
def INTERNAL_TASK_PRIORITY_RANK (s : String) : Option Nat :=
  if s = "high" then some 0
  else if s = "medium" then some 1
  else if s = "low" then some 2
  else none

/-- The `INTERNAL_TASK_STATUS_RANK` dict from `src/routes/main.py`
(equal to `InternalTask.STATUS_RANK` in `src/models.py`). -/
def INTERNAL_TASK_STATUS_RANK (s : String) : Option Nat :=
  if s = "todo" then some 0
  else if s = "in-progress" then some 1
  else if s = "blocked" then some 2
  else if s = "done" then some 3
  else none

/-- The `InternalTask` model (`src/models.py`), restricted to the columns the
portal logic reads.  `due_date` is a date ordinal, `created_at` a timestamp
offset; `id` is `none` before the row is flushed. -/
structure InternalTask where
  id : Option Int := none
  project_id : Int := 0
  parent_task_id : Option Int := none
  title : String := ""
  assignee : String := ""
  priority : Option String := none
  status : Option String := none
  due_date : Option Nat := none
  created_at : Option Nat := none
deriving Repr, DecidableEq

/-- Python `task.id or 0`.  `None` is falsy, and the only falsy `int` is `0`
(which maps to itself), so this is exactly `Option.getD 0`. -/
def pyIdOr0 (v : Option Int) : Int := v.getD 0

/-- Value of the tuple produced by `_task_sort_key` (`src/routes/main.py`) and
`InternalTask.sort_key` (`src/models.py`), with one named field per tuple
slot, compared lexicographically as Python compares tuples. -/
structure TaskSortKey where
  statusRank : Nat
  priorityRank : Nat
  dueOrd : Nat
  createdOrd : Nat
  taskId : Int
deriving Repr, DecidableEq

/-- Lexicographic `<=` on sort-key tuples, mirroring Python tuple comparison. -/
def TaskSortKey.le (a b : TaskSortKey) : Bool :=
  if a.statusRank ≠ b.statusRank then decide (a.statusRank < b.statusRank)
  else if a.priorityRank ≠ b.priorityRank then decide (a.priorityRank < b.priorityRank)
  else if a.dueOrd ≠ b.dueOrd then decide (a.dueOrd < b.dueOrd)
  else if a.createdOrd ≠ b.createdOrd then decide (a.createdOrd < b.createdOrd)
  else decide (a.taskId ≤ b.taskId)

/-- The `_task_sort_key` helper of `src/routes/main.py` (identical to the
`InternalTask.sort_key` property of `src/models.py`): missing due date falls
back to `date.max`, missing creation timestamp to `datetime.min`, missing id
to `0`, and unknown priority/status strings to ranks `3` and `4`. -/
def taskSortKey (task : InternalTask) : TaskSortKey :=
  { statusRank := (INTERNAL_TASK_STATUS_RANK (normalizedOrEmpty task.status)).getD 4
    priorityRank := (INTERNAL_TASK_PRIORITY_RANK (normalizedOrEmpty task.priority)).getD 3
    dueOrd := task.due_date.getD DATE_MAX
    createdOrd := task.created_at.getD DATETIME_MIN
    taskId := pyIdOr0 task.id }

/-- Comparison of two tasks by their sort keys, the ordering used by every
`sorted(..., key=_task_sort_key)` call in `src/routes/main.py`. -/
def taskLe (a b : InternalTask) : Bool :=
  TaskSortKey.le (taskSortKey a) (taskSortKey b)

/-- Python `sorted(tasks, key=_task_sort_key)`: a stable sort by the task
sort key (`List.mergeSort` is stable, as is Python's sort). -/
def sortTasks (tasks : List InternalTask) : List InternalTask :=
  tasks.mergeSort taskLe

/-- The `_normalize_internal_task_priority` helper of `src/routes/main.py`.
Python `raw_value or "medium"` replaces both `None` and the empty string. -/
def normalizeInternalTaskPriority (rawValue : Option String) : String :=
  let base := match rawValue with
    | none => "medium"
    | some s => if s.isEmpty then "medium" else s
  let normalized := pyToLower (pyStrip base)
  if normalized ∈ INTERNAL_TASK_PRIORITIES then normalized else "medium"

/-- The `_normalize_internal_task_status` helper of `src/routes/main.py`. -/
def normalizeInternalTaskStatus (rawValue : Option String) : String :=
  let base := match rawValue with
    | none => "todo"
    | some s => if s.isEmpty then "todo" else s
  let normalized := pyToLower (pyStrip base)
  if normalized ∈ INTERNAL_TASK_STATUSES then normalized else "todo"

/-- The `InternalTask.is_done` property of `src/models.py`. -/
def InternalTask.is_done (task : InternalTask) : Bool :=
  normalizedOrEmpty task.status == "done"

/-- Value of the inline sort-key tuple of the priority-queue view in
`internal_todos` (`src/routes/main.py`): priority rank, due date, status
rank, creation timestamp. -/
structure QueueSortKey where
  priorityRank : Nat
  dueOrd : Nat
  statusRank : Nat
  createdOrd : Nat
deriving Repr, DecidableEq

/-- Lexicographic `<=` on queue sort keys, mirroring Python tuple
comparison. -/
def QueueSortKey.le (a b : QueueSortKey) : Bool :=
  if a.priorityRank ≠ b.priorityRank then decide (a.priorityRank < b.priorityRank)
  else if a.dueOrd ≠ b.dueOrd then decide (a.dueOrd < b.dueOrd)
  else if a.statusRank ≠ b.statusRank then decide (a.statusRank < b.statusRank)
  else decide (a.createdOrd ≤ b.createdOrd)

/-- The `key=lambda task: (...)` tuple used to sort `queue_tasks` in
`internal_todos` (`src/routes/main.py`). -/
def queueSortKey (task : InternalTask) : QueueSortKey :=
  { priorityRank := (INTERNAL_TASK_PRIORITY_RANK (normalizedOrEmpty task.priority)).getD 3
    dueOrd := task.due_date.getD DATE_MAX
    statusRank := (INTERNAL_TASK_STATUS_RANK (normalizedOrEmpty task.status)).getD 4
    createdOrd := task.created_at.getD DATETIME_MIN }

/-- Comparison of two queue tasks by the queue sort key. -/
def queueTaskLe (a b : InternalTask) : Bool :=
  QueueSortKey.le (queueSortKey a) (queueSortKey b)

/-- Membership test of the `internal_todos` collection loop: a task enters
`queue_tasks` when it survives the optional project filter and is not done. -/
def queueAdmits (selectedProjectId : Option Int) (task : InternalTask) : Bool :=
  (match selectedProjectId with
    | some pid => task.project_id == pid
    | none => true) && !task.is_done

/-- The `queue_tasks` list computed by `internal_todos`
(`src/routes/main.py`): collect every task that passes the project filter and
is not done, then stable-sort by the queue key tuple. -/
def internalTodosQueueTasks (selectedProjectId : Option Int)
    (tasks : List InternalTask) : List InternalTask :=
  (tasks.filter (queueAdmits selectedProjectId)).mergeSort queueTaskLe

/-- Separator class of the regex `[,\n;]+` used by
`_normalize_resource_tags`. -/
def isTagSeparator (c : Char) : Bool :=
  c == ',' || c == '\n' || c == ';'

/-- Character-level worker for `re.split(r"[,\n;]+", s)`: `acc` holds the
current chunk reversed, `inRun` records that the previous character was a
separator (so further separators extend the same run). -/
def reSplitSepsAux : List Char → List Char → Bool → List String
  | [], acc, _ => [String.mk acc.reverse]
  | c :: rest, acc, inRun =>
    if isTagSeparator c then
      if inRun then reSplitSepsAux rest acc true
      else String.mk acc.reverse :: reSplitSepsAux rest [] true
    else reSplitSepsAux rest (c :: acc) false

/-- Python `re.split(r"[,\n;]+", s)`: split on runs of commas, newlines and
semicolons (runs collapse; boundary runs leave empty chunks). -/
def reSplitSeparators (s : String) : List String :=
  reSplitSepsAux s.data [] false

/-- Per-chunk normalization of `_normalize_resource_tags`
(`src/routes/main.py`): `" ".join(chunk.strip().lower().lstrip("#").split())`. -/
def normalizeResourceTagChunk (chunk : String) : String :=
  String.intercalate " "
    (pySplitWs (String.mk ((pyToLower (pyStrip chunk)).data.dropWhile (fun c => c == '#'))))

/-- Deduplicating loop of `_normalize_resource_tags`: `seen` is the set of
already-emitted normalized tags. -/
def normalizeTagsAux : List String → List String → List String
  | [], _ => []
  | chunk :: rest, seen =>
    let normalized := normalizeResourceTagChunk chunk
    if normalized.isEmpty || normalized ∈ seen then normalizeTagsAux rest seen
    else normalized :: normalizeTagsAux rest (normalized :: seen)

/-- The `_normalize_resource_tags` helper of `src/routes/main.py`.  Python
`if not raw_value` also treats the empty string as missing. -/
def normalizeResourceTags (rawValue : Option String) : List String :=
  match rawValue with
  | none => []
  | some s => if s.isEmpty then [] else normalizeTagsAux (reSplitSeparators s) []

/-- The `RESOURCE_CATEGORY_FALLBACK` constant of `src/routes/main.py`. -/
def RESOURCE_CATEGORY_FALLBACK : String := "general"

/-- The `_normalize_resource_category` helper of `src/routes/main.py`:
`" ".join((raw_value or FALLBACK).strip().split()).lower()`, falling back to
`"general"` when the result is empty. -/
def normalizeResourceCategory (rawValue : Option String) : String :=
  let base := match rawValue with
    | none => RESOURCE_CATEGORY_FALLBACK
    | some s => if s.isEmpty then RESOURCE_CATEGORY_FALLBACK else s
  let normalized := pyToLower (collapseWhitespace base)
  if normalized.isEmpty then RESOURCE_CATEGORY_FALLBACK else normalized

/-- The `InternalProject` model (`src/models.py`), restricted to the columns
that the resource filter reads. -/
structure InternalProject where
  id : Int
  name : String := ""
deriving Repr, DecidableEq

/-- The `InternalResource` model (`src/models.py`), with its relationship
collections inlined: linked projects, linked tasks, and tag names (the
`tag_names` of its `InternalResourceTag` rows). -/
structure InternalResource where
  id : Int := 0
  title : String := ""
  category : String := ""
  link : String := ""
  description : String := ""
  projects : List InternalProject := []
  tasks : List InternalTask := []
  tags : List String := []
deriving Repr, DecidableEq

/-- Bool test that `pat` occurs at the head of `l`. -/
def listStartsWith [DecidableEq α] : List α → List α → Bool
  | [], _ => true
  | _ :: _, [] => false
  | a :: as, b :: bs => if a = b then listStartsWith as bs else false

/-- Bool test that `pat` occurs contiguously anywhere in `l`. -/
def listContainsSeq [DecidableEq α] (pat : List α) : List α → Bool
  | [] => pat.isEmpty
  | b :: bs => listStartsWith pat (b :: bs) || listContainsSeq pat bs

/-- Python `needle in hay` on strings: contiguous substring test. -/
def pyInStr (needle hay : String) : Bool :=
  listContainsSeq needle.data hay.data

/-- The `InternalResource.searchable_text` property of `src/models.py`. -/
def searchableText (r : InternalResource) : String :=
  let parts := [r.title, r.category, r.description, r.link]
    ++ r.projects.map (fun p => p.name)
    ++ r.tasks.map (fun t => t.title)
    ++ r.tags
  pyToLower (String.intercalate " " (parts.filter (fun part => !part.isEmpty)))

/-- Python truthiness `bool(resource.projects or resource.tasks)`. -/
def resourceIsLinked (r : InternalResource) : Bool :=
  !r.projects.isEmpty || !r.tasks.isEmpty

/-- The `linked_project_ids` set of the `internal_resources` filter loop:
ids of directly linked projects plus the (truthy) `project_id` of every
linked task. -/
def linkedProjectIds (r : InternalResource) : List Int :=
  r.projects.map (fun p => p.id)
    ++ (r.tasks.map (fun t => t.project_id)).filter (fun pid => pid ≠ 0)

/-- Body of the filtering loop of `internal_resources`
(`src/routes/main.py`, lines 1718-1740): one conjunct per `continue` guard,
in source order.  `selectedProject = none` models the `"all"` project scope,
and `queryTermLower` is already lower-cased as in the view. -/
def resourcePassesFilters (queryTermLower selectedCategory selectedTag selectedState : String)
    (selectedProject : Option Int) (r : InternalResource) : Bool :=
  let categoryValue := normalizeResourceCategory (some r.category)
  let isLinked := resourceIsLinked r
  let hasTags := !r.tags.isEmpty
  !(selectedCategory ≠ "all" && categoryValue ≠ selectedCategory)
    && !(selectedTag ≠ "all" && !(r.tags.contains selectedTag))
    && !(selectedState == "linked" && !isLinked)
    && !(selectedState == "unlinked" && isLinked)
    && !(selectedState == "untagged" && hasTags)
    && !(match selectedProject with
          | none => false
          | some pid => !((linkedProjectIds r).contains pid))
    && !(!queryTermLower.isEmpty && !(pyInStr queryTermLower (searchableText r)))

/-- The `filtered_resources` list of `internal_resources`: the resources
surviving every facet guard, in collection order. -/
def internalResourcesFiltered (queryTermLower selectedCategory selectedTag selectedState : String)
    (selectedProject : Option Int) (resources : List InternalResource) : List InternalResource :=
  resources.filter
    (resourcePassesFilters queryTermLower selectedCategory selectedTag selectedState selectedProject)

/-- Tasks created by `_create_project_starter_tasks` (`src/routes/main.py`):
parent phase tasks carry `isSubtask = false`, their nested subtasks
`isSubtask = true`. -/
structure GeneratedTask where
  title : String
  assignee : String
  priority : String
  status : String := "todo"
  due_date : Nat
  isSubtask : Bool
deriving Repr, DecidableEq

/-- Round the rational `num / den` to the nearest integer, ties to even —
the rounding used by IEEE-754 binary64 arithmetic and by Python's `round`. -/
def roundHalfEven (num den : Nat) : Nat :=
  let q := num / den
  let r := num % den
  if den < 2 * r then q + 1
  else if 2 * r < den then q
  else if q % 2 = 1 then q + 1 else q

/-- Fuel-driven bit length; `bitLenAux fuel n` is the bit length of `n` for
every `n < 2 ^ fuel` (structural recursion so the kernel can evaluate it). -/
def bitLenAux : Nat → Nat → Nat
  | 0, _ => 0
  | fuel + 1, n => if n = 0 then 0 else bitLenAux fuel (n / 2) + 1

/-- Bit length of a natural number below `2 ^ 128` (every number arising
from the starter-plan arithmetic is far below that). -/
def bitLen (n : Nat) : Nat :=
  bitLenAux 128 n

/-- IEEE-754 binary64 rounding of the value `n · 2 ^ e` (any fixed exponent
`e`): keep 53 significand bits, round to nearest, ties to even.  The result
is the scaled integer of the rounded value at the same exponent `e`; for
`n < 2 ^ 53` the value is exactly representable and returned unchanged. -/
def fpRound53 (n : Nat) : Nat :=
  2 ^ (bitLen n - 53) * roundHalfEven n (2 ^ (bitLen n - 53))

/-- Binade selector for the starter-plan percentage constants: the `t` with
`k / 100 ∈ [2 ^ (-t), 2 ^ (1 - t))`, so that the double nearest `k / 100`
has unit-in-the-last-place `2 ^ (-(52 + t))`. -/
def pctBinade (k : Nat) : Nat :=
  if k < 13 then 4 else if k < 25 then 3 else if k < 50 then 2 else 1

/-- The IEEE-754 double produced by the CPython parser for the percentage
literal `k / 100` (`0.08`, `0.14`, …, `0.9`), represented as its numerator
over the common denominator `2 ^ 57`: the correctly rounded 53-bit
significand at the constant's binade, rescaled. -/
def floatPctNum (k : Nat) : Nat :=
  roundHalfEven (k * 2 ^ (52 + pctBinade k)) 100 * 2 ^ (5 - pctBinade k)

/-- CPython's `int(round(span_days * percentage))` with `percentage` the
double of `k / 100`: the exact product `span · floatPctNum k / 2 ^ 57` is
first rounded to a 53-bit-significand double (the float multiplication),
then `round` takes that double to the nearest integer, ties to even.  The
int-to-float conversion of `span_days` is exact since every date span is
far below `2 ^ 53`. -/
def pyRoundFloatProduct (span k : Nat) : Nat :=
  roundHalfEven (fpRound53 (span * floatPctNum k)) (2 ^ 57)

/-- The inner `milestone(percentage)` closure of
`_create_project_starter_tasks`, with the percentage given in hundredths and
its float arithmetic modelled by `pyRoundFloatProduct`.  Python computes
`max((due - start).days, 1)`; when the due date precedes the start the
Python value is `max(negative, 1) = 1` and the truncated `Nat` subtraction
gives `max 0 1 = 1` as well. -/
def milestone (startOrd projectDueOrd : Nat) (pctHundredths : Nat) : Nat :=
  let spanDays := max (projectDueOrd - startOrd) 1
  let offsetDays := max 1 (pyRoundFloatProduct spanDays pctHundredths)
  min (startOrd + offsetDays) projectDueOrd

/-- One phase of the starter-plan blueprint: the parent task followed by its
subtasks, all with the phase's priority and status `"todo"`. -/
def phaseTasks (deliveryOwner title priority : String) (parentDue : Nat)
    (subs : List (String × Nat)) : List GeneratedTask :=
  { title := title, assignee := deliveryOwner, priority := priority,
    due_date := parentDue, isSubtask := false }
    :: subs.map (fun sub =>
      { title := sub.1, assignee := deliveryOwner, priority := priority,
        due_date := sub.2, isSubtask := true })

/-- The `_create_project_starter_tasks` helper of `src/routes/main.py`,
returning the tasks it adds to the session in creation order.  `startOrd`
models `date.today()`, `projectDue` the project's nullable due date,
`timelineDays` the (already normalized, positive) timeline length and the
two owner strings feed the `delivery_owner` fallback chain. -/
def createProjectStarterTasks (startOrd : Nat) (projectDue : Option Nat)
    (timelineDays : Nat) (ownerDisplayName clientAccountOwner : String) :
    List GeneratedTask :=
  let effectiveTimelineDays := max timelineDays 1
  let projectDueOrd := projectDue.getD (startOrd + effectiveTimelineDays)
  let deliveryOwner :=
    if ownerDisplayName.isEmpty then
      if clientAccountOwner.isEmpty then "Project Team" else clientAccountOwner
    else ownerDisplayName
  let m := milestone startOrd projectDueOrd
  phaseTasks deliveryOwner "Kickoff and Discovery" "high" (m 20)
      [("Confirm delivery objective and success metric", m 8),
       ("Map current workflow and bottlenecks", m 14),
       ("Approve scope and execution cadence", m 20)]
    ++ phaseTasks deliveryOwner "Solution Build and Validation" "high" (m 55)
      [("Implement pilot workflow with target users", m 38),
       ("Review model and process output quality", m 48),
       ("Prioritize iteration backlog", m 55)]
    ++ phaseTasks deliveryOwner "Rollout and Team Enablement" "medium" (m 82)
      [("Prepare launch checklist and fallback plan", m 67),
       ("Deliver team training and handover", m 76),
       ("Go-live monitoring and issue triage", m 82)]
    ++ phaseTasks deliveryOwner "Value Review and Scale Plan" "medium" projectDueOrd
      [("Measure ROI against baseline KPI", m 90),
       ("Present optimisation and scale recommendations", projectDueOrd)]

/-- The `InternalMessage` model (`src/models.py`), restricted to the columns
the messaging logic reads. -/
structure InternalMessage where
  sender_id : Int
  body : String
  created_at : Nat := 0
deriving Repr, DecidableEq

/-- The `InternalMessageChannel` model (`src/models.py`), with the member
relationship inlined as the list of member user ids and the message log
inlined in creation order. -/
structure InternalMessageChannel where
  id : Int := 0
  channel_type : String := "group"
  name : Option String := none
  project_id : Option Int := none
  direct_user_low_id : Option Int := none
  direct_user_high_id : Option Int := none
  created_by_id : Option Int := none
  members : List Int := []
  messages : List InternalMessage := []
  updated_at : Nat := 0
deriving Repr, DecidableEq

/-- The `_internal_user_can_access_channel` helper of `src/routes/main.py`:
a project channel is open to every portal user, any other channel only to
its registered members. -/
def internalUserCanAccessChannel (channel : InternalMessageChannel) (userId : Int) : Bool :=
  if channel.channel_type == "project" then true
  else channel.members.any (fun memberId => memberId == userId)

/-- The `_get_or_create_direct_channel` helper of `src/routes/main.py`.
`channels` models the `internal_message_channel` table in insertion order
(`query.filter_by(...).first()` is `List.find?`); Python's
`sorted((a, b))` is the pair `(min a b, max a b)`.  The created channel has
membership exactly the two users and the initiating user as creator. -/
def getOrCreateDirectChannel (channels : List InternalMessageChannel)
    (currentUserId recipientUserId : Int) : InternalMessageChannel × Bool :=
  let lowId := min currentUserId recipientUserId
  let highId := max currentUserId recipientUserId
  match channels.find? (fun c =>
      c.channel_type == "direct"
        && c.direct_user_low_id == some lowId
        && c.direct_user_high_id == some highId) with
  | some existingChannel => (existingChannel, false)
  | none =>
    ({ channel_type := "direct",
       direct_user_low_id := some lowId,
       direct_user_high_id := some highId,
       created_by_id := some currentUserId,
       members := [currentUserId, recipientUserId] }, true)

/-- The `_parse_positive_int` helper of `src/routes/main.py`; its `Option Int`
argument models the result of Python `int(raw)` (`none` for a missing value
or a `ValueError`). -/
def parsePositiveInt (value : Option Int) : Option Int :=
  match value with
  | none => none
  | some v => if 0 < v then some v else none

/-- Replacement of the first element satisfying `p` — the list-level picture
of mutating the single object returned by `.first()`. -/
def updateFirst (p : α → Bool) (f : α → α) : List α → List α
  | [] => []
  | x :: xs => if p x then f x :: xs else x :: updateFirst p f xs

/-- The `internal_messages_post` handler of `src/routes/main.py`, after form
decoding: `channelIdValue` is the already-parsed `_parse_positive_int` input,
`rawBody` the raw form body and `now` the commit-time clock.  The result is
the new channel table plus a flag telling whether a message was created; on
every rejection branch the handler redirects without touching the session,
so the table is returned unchanged. -/
def internalMessagesPost (channels : List InternalMessageChannel) (userId : Int)
    (channelIdValue : Option Int) (rawBody : String) (now : Nat) :
    List InternalMessageChannel × Bool :=
  match parsePositiveInt channelIdValue with
  | none => (channels, false)
  | some channelId =>
    let body := pyStrip rawBody
    if body.isEmpty then (channels, false)
    else if 3000 < body.length then (channels, false)
    else
      match channels.find? (fun c => c.id == channelId) with
      | none => (channels, false)
      | some channel =>
        if internalUserCanAccessChannel channel userId then
          (updateFirst (fun c => c.id == channelId)
            (fun c =>
              { c with
                messages := c.messages ++ [{ sender_id := userId, body := body, created_at := now }],
                updated_at := now })
            channels, true)
        else (channels, false)

/-- The `InternalUser` model (`src/models.py`), restricted to the columns the
group-creation handler reads. -/
structure InternalUser where
  id : Int
  full_name : String := ""
  is_active : Bool := true
deriving Repr, DecidableEq

/-- Lexicographic comparison of character lists by code point, modelling the
string ordering used by the `order_by(InternalUser.full_name.asc())` query. -/
def charListLe : List Char → List Char → Bool
  | [], _ => true
  | _ :: _, [] => false
  | a :: as, b :: bs =>
    if a < b then true
    else if b < a then false
    else charListLe as bs

/-- String comparison by code points (the `full_name` ordering). -/
def pyStrLe (a b : String) : Bool :=
  charListLe a.data b.data

/-- Worker of `_parse_int_list`: `seen` is the set of already-accepted ids. -/
def parseIntListAux : List (Option Int) → List Int → List Int
  | [], _ => []
  | none :: rest, seen => parseIntListAux rest seen
  | some v :: rest, seen =>
    if v ≤ 0 || v ∈ seen then parseIntListAux rest seen
    else v :: parseIntListAux rest (v :: seen)

/-- The `_parse_int_list` helper of `src/routes/main.py`; each `Option Int`
models the result of Python `int(raw)` on one submitted form value (`none`
for a `ValueError`).  Non-positive and repeated ids are dropped, first
occurrences keep their order. -/
def parseIntList (rawValues : List (Option Int)) : List Int :=
  parseIntListAux rawValues []

/-- The `internal_messages_create_group` handler of `src/routes/main.py`,
after form decoding: `users` models the `internal_user` table, `rawName` the
submitted group name and `rawMemberIds` the `int()` results of the submitted
`member_ids`.  `none` is any rejected (flash + redirect) branch; otherwise
the created channel is returned.  `set(...)` plus `member_ids.add(...)` is
modelled by the duplicate-free `parseIntList` output plus `List.insert`. -/
def internalMessagesCreateGroup (users : List InternalUser) (currentUserId : Int)
    (rawName : String) (rawMemberIds : List (Option Int)) :
    Option InternalMessageChannel :=
  let name := collapseWhitespace rawName
  let memberIds := (parseIntList rawMemberIds).insert currentUserId
  if name.isEmpty then none
  else if 160 < name.length then none
  else if memberIds.length < 2 then none
  else
    let members := (users.filter (fun u => memberIds.contains u.id && u.is_active)).insertionSort
      (fun a b => pyStrLe a.full_name b.full_name = true)
    if members.length ≠ memberIds.length then none
    else
      some { channel_type := "group",
             name := some name,
             created_by_id := some currentUserId,
             members := members.map (fun u => u.id) }

theorem TaskSortKey.le_iff (a b : TaskSortKey) : (a.le b = true) ↔
    (a.statusRank < b.statusRank ∨ (a.statusRank = b.statusRank ∧
      (a.priorityRank < b.priorityRank ∨ (a.priorityRank = b.priorityRank ∧
        (a.dueOrd < b.dueOrd ∨ (a.dueOrd = b.dueOrd ∧
          (a.createdOrd < b.createdOrd ∨ (a.createdOrd = b.createdOrd ∧
            a.taskId ≤ b.taskId)))))))) := by
  unfold TaskSortKey.le
  split_ifs <;> simp_all

theorem TaskSortKey.le_total (a b : TaskSortKey) : a.le b = true ∨ b.le a = true := by
  rw [le_iff, le_iff]; omega

theorem TaskSortKey.le_trans (a b c : TaskSortKey)
    (h1 : a.le b = true) (h2 : b.le c = true) : a.le c = true := by
  rw [le_iff] at h1 h2 ⊢; omega

theorem TaskSortKey.le_antisymm (a b : TaskSortKey)
    (h1 : a.le b = true) (h2 : b.le a = true) : a = b := by
  obtain ⟨s1, p1, d1, c1, i1⟩ := a
  obtain ⟨s2, p2, d2, c2, i2⟩ := b
  rw [le_iff] at h1 h2
  simp only [TaskSortKey.mk.injEq]
  dsimp only at h1 h2
  omega

theorem queueKeyLe_iff (a b : QueueSortKey) : (a.le b = true) ↔
    (a.priorityRank < b.priorityRank ∨ (a.priorityRank = b.priorityRank ∧
      (a.dueOrd < b.dueOrd ∨ (a.dueOrd = b.dueOrd ∧
        (a.statusRank < b.statusRank ∨ (a.statusRank = b.statusRank ∧
          a.createdOrd ≤ b.createdOrd)))))) := by
  unfold QueueSortKey.le
  split_ifs <;> simp_all

theorem queueKeyLe_total (a b : QueueSortKey) : a.le b = true ∨ b.le a = true := by
  rw [queueKeyLe_iff, queueKeyLe_iff]; omega

theorem queueKeyLe_trans (a b c : QueueSortKey)
    (h1 : a.le b = true) (h2 : b.le c = true) : a.le c = true := by
  rw [queueKeyLe_iff] at h1 h2 ⊢; omega

theorem taskLe_total (a b : InternalTask) : taskLe a b = true ∨ taskLe b a = true :=
  TaskSortKey.le_total _ _

theorem taskLe_trans (a b c : InternalTask)
    (h1 : taskLe a b = true) (h2 : taskLe b c = true) : taskLe a c = true :=
  TaskSortKey.le_trans _ _ _ h1 h2

theorem queueTaskLe_total (a b : InternalTask) :
    queueTaskLe a b = true ∨ queueTaskLe b a = true :=
  queueKeyLe_total _ _

theorem queueTaskLe_trans (a b c : InternalTask)
    (h1 : queueTaskLe a b = true) (h2 : queueTaskLe b c = true) : queueTaskLe a c = true :=
  queueKeyLe_trans _ _ _ h1 h2

theorem statusRank_getD_le (s : String) : (INTERNAL_TASK_STATUS_RANK s).getD 4 ≤ 4 := by
  unfold INTERNAL_TASK_STATUS_RANK
  split_ifs <;> simp

theorem priorityRank_getD_le (s : String) : (INTERNAL_TASK_PRIORITY_RANK s).getD 3 ≤ 3 := by
  unfold INTERNAL_TASK_PRIORITY_RANK
  split_ifs <;> simp

theorem statusRank_getD_of_not_mem (s : String) (h : s ∉ INTERNAL_TASK_STATUSES) :
    (INTERNAL_TASK_STATUS_RANK s).getD 4 = 4 := by
  simp only [INTERNAL_TASK_STATUSES, List.mem_cons, List.not_mem_nil, or_false, not_or] at h
  obtain ⟨h1, h2, h3, h4⟩ := h
  unfold INTERNAL_TASK_STATUS_RANK
  simp [h1, h2, h3, h4]

theorem priorityRank_getD_of_not_mem (s : String) (h : s ∉ INTERNAL_TASK_PRIORITIES) :
    (INTERNAL_TASK_PRIORITY_RANK s).getD 3 = 3 := by
  simp only [INTERNAL_TASK_PRIORITIES, List.mem_cons, List.not_mem_nil, or_false, not_or] at h
  obtain ⟨h1, h2, h3⟩ := h
  unfold INTERNAL_TASK_PRIORITY_RANK
  simp [h1, h2, h3]

/-- C1: For every task, the nested-view task sort key is the tuple
(status rank, priority rank, due date, creation timestamp, id): status ranks
are todo = 0, in-progress = 1, blocked = 2, done = 3 and any other status
ranks 4; priority ranks are high = 0, medium = 1, low = 2 and any other
priority ranks 3; a missing due date is treated as the maximum date; a
missing creation timestamp is treated as the minimum timestamp; id is the
final ascending tie-break; malformed priority/status values never cause an
error, only a last-place rank. -/
theorem claim_C1_task_sort_key (t : InternalTask) :
    (normalizedOrEmpty t.status = "todo" → (taskSortKey t).statusRank = 0)
    ∧ (normalizedOrEmpty t.status = "in-progress" → (taskSortKey t).statusRank = 1)
    ∧ (normalizedOrEmpty t.status = "blocked" → (taskSortKey t).statusRank = 2)
    ∧ (normalizedOrEmpty t.status = "done" → (taskSortKey t).statusRank = 3)
    ∧ (normalizedOrEmpty t.status ∉ INTERNAL_TASK_STATUSES → (taskSortKey t).statusRank = 4)
    ∧ (normalizedOrEmpty t.priority = "high" → (taskSortKey t).priorityRank = 0)
    ∧ (normalizedOrEmpty t.priority = "medium" → (taskSortKey t).priorityRank = 1)
    ∧ (normalizedOrEmpty t.priority = "low" → (taskSortKey t).priorityRank = 2)
    ∧ (normalizedOrEmpty t.priority ∉ INTERNAL_TASK_PRIORITIES → (taskSortKey t).priorityRank = 3)
    ∧ (∀ d, t.due_date = some d → (taskSortKey t).dueOrd = d)
    ∧ (t.due_date = none → (taskSortKey t).dueOrd = DATE_MAX
        ∧ ∀ d, d ≤ DATE_MAX → d ≤ (taskSortKey t).dueOrd)
    ∧ (∀ c, t.created_at = some c → (taskSortKey t).createdOrd = c)
    ∧ (t.created_at = none → (taskSortKey t).createdOrd = DATETIME_MIN
        ∧ ∀ c : Nat, (taskSortKey t).createdOrd ≤ c)
    ∧ (∀ i, t.id = some i → (taskSortKey t).taskId = i)
    ∧ (∀ u : InternalTask,
        (taskSortKey t).statusRank = (taskSortKey u).statusRank →
        (taskSortKey t).priorityRank = (taskSortKey u).priorityRank →
        (taskSortKey t).dueOrd = (taskSortKey u).dueOrd →
        (taskSortKey t).createdOrd = (taskSortKey u).createdOrd →
        (taskLe t u = true ↔ (taskSortKey t).taskId ≤ (taskSortKey u).taskId))
    ∧ (taskSortKey t).statusRank ≤ 4
    ∧ (taskSortKey t).priorityRank ≤ 3 := by
  refine ⟨fun h => ?_, fun h => ?_, fun h => ?_, fun h => ?_, fun h => ?_,
    fun h => ?_, fun h => ?_, fun h => ?_, fun h => ?_,
    fun d h => ?_, fun h => ⟨?_, fun d hd => ?_⟩,
    fun c h => ?_, fun h => ⟨?_, fun c => ?_⟩,
    fun i h => ?_, fun u h1 h2 h3 h4 => ?_, ?_, ?_⟩
  case _ => simp [taskSortKey, h, INTERNAL_TASK_STATUS_RANK]
  case _ => simp [taskSortKey, h, INTERNAL_TASK_STATUS_RANK]
  case _ => simp [taskSortKey, h, INTERNAL_TASK_STATUS_RANK]
  case _ => simp [taskSortKey, h, INTERNAL_TASK_STATUS_RANK]
  case _ => simpa [taskSortKey] using statusRank_getD_of_not_mem _ h
  case _ => simp [taskSortKey, h, INTERNAL_TASK_PRIORITY_RANK]
  case _ => simp [taskSortKey, h, INTERNAL_TASK_PRIORITY_RANK]
  case _ => simp [taskSortKey, h, INTERNAL_TASK_PRIORITY_RANK]
  case _ => simpa [taskSortKey] using priorityRank_getD_of_not_mem _ h
  case _ => simp [taskSortKey, h]
  case _ => simp [taskSortKey, h]
  case _ =>
    have : (taskSortKey t).dueOrd = DATE_MAX := by simp [taskSortKey, h]
    omega
  case _ => simp [taskSortKey, h]
  case _ => simp [taskSortKey, h, DATETIME_MIN]
  case _ =>
    have : (taskSortKey t).createdOrd = DATETIME_MIN := by simp [taskSortKey, h]
    simp only [DATETIME_MIN] at this
    omega
  case _ => simp [taskSortKey, pyIdOr0, h]
  case _ =>
    unfold taskLe
    rw [TaskSortKey.le_iff]
    omega
  case _ => simpa [taskSortKey] using statusRank_getD_le _
  case _ => simpa [taskSortKey] using priorityRank_getD_le _

/-- Witness for C1 at a concrete task: a normalized status of `"todo"`
(here submitted as `" Todo "`) is ranked `0`. -/
theorem claim_C1_task_sort_key_witness :
    (taskSortKey { id := some 7, priority := some " HIGH ", status := some " Todo " }).statusRank = 0 :=
  (claim_C1_task_sort_key _).1 (by decide)

/-- C8: For every list of tasks with pairwise distinct ids, sorting by the
task sort key is total and stable with no ties: the sort key function is
injective on such tasks (id is a unique final tie-break), re-sorting an
already-sorted list is a no-op, the sorted output is ordered by the key, and
any two distinct tasks compare strictly in exactly one direction. -/
theorem claim_C8_sort_key_total_order (l : List InternalTask)
    (hsome : ∀ t ∈ l, t.id.isSome = true)
    (hnodup : (l.map InternalTask.id).Nodup) :
    (∀ t1 ∈ l, ∀ t2 ∈ l, taskSortKey t1 = taskSortKey t2 → t1 = t2)
    ∧ (List.Pairwise (fun a b => taskLe a b = true) l → sortTasks l = l)
    ∧ List.Pairwise (fun a b => taskLe a b = true) (sortTasks l)
    ∧ (∀ t1 ∈ l, ∀ t2 ∈ l, t1 ≠ t2 →
        (taskLe t1 t2 = true ∧ taskLe t2 t1 = false)
          ∨ (taskLe t2 t1 = true ∧ taskLe t1 t2 = false)) := by
  have inj : ∀ t1 ∈ l, ∀ t2 ∈ l, taskSortKey t1 = taskSortKey t2 → t1 = t2 := by
    intro t1 h1 t2 h2 hk
    obtain ⟨i1, hi1⟩ := Option.isSome_iff_exists.mp (hsome t1 h1)
    obtain ⟨i2, hi2⟩ := Option.isSome_iff_exists.mp (hsome t2 h2)
    have hid : t1.id = t2.id := by
      have hkey : (taskSortKey t1).taskId = (taskSortKey t2).taskId := by rw [hk]
      simp only [taskSortKey, pyIdOr0, hi1, hi2, Option.getD_some] at hkey
      rw [hi1, hi2, hkey]
    exact List.inj_on_of_nodup_map hnodup h1 h2 hid
  refine ⟨inj, fun hs => List.mergeSort_of_sorted hs, ?_, ?_⟩
  · exact List.sorted_mergeSort taskLe_trans
      (fun a b => by rw [Bool.or_eq_true]; exact taskLe_total a b) l
  · intro t1 h1 t2 h2 hne
    rcases taskLe_total t1 t2 with hle | hle
    · refine Or.inl ⟨hle, ?_⟩
      by_contra hh
      have h21 : taskLe t2 t1 = true := by
        revert hh; cases taskLe t2 t1 <;> simp
      exact hne (inj t1 h1 t2 h2 (TaskSortKey.le_antisymm _ _ hle h21))
    · refine Or.inr ⟨hle, ?_⟩
      by_contra hh
      have h12 : taskLe t1 t2 = true := by
        revert hh; cases taskLe t1 t2 <;> simp
      exact hne (inj t1 h1 t2 h2 (TaskSortKey.le_antisymm _ _ h12 hle))

/-- Witness for C8: re-sorting a concrete already-sorted two-task list with
distinct ids is a no-op. -/
theorem claim_C8_sort_key_total_order_witness :
    sortTasks [{ id := some 1, status := some "todo" },
               { id := some 2, status := some "done" }] =
      [{ id := some 1, status := some "todo" },
       { id := some 2, status := some "done" }] :=
  (claim_C8_sort_key_total_order _ (by decide) (by decide)).2.1 (by decide)

/-- C9: For every raw form input (including a missing value, surrounding
whitespace and mixed case), the task priority normalizer returns a member of
high/medium/low, mapping any unrecognized or missing value to `"medium"`,
and the task status normalizer returns a member of
todo/in-progress/blocked/done, mapping any unrecognized or missing value to
`"todo"`; consequently a task whose fields come from the normalizers never
reaches the sort key's last-place ranks. -/
theorem claim_C9_normalizers_total (raw : Option String) :
    normalizeInternalTaskPriority raw ∈ INTERNAL_TASK_PRIORITIES
    ∧ normalizeInternalTaskStatus raw ∈ INTERNAL_TASK_STATUSES
    ∧ (raw = none → normalizeInternalTaskPriority raw = "medium"
        ∧ normalizeInternalTaskStatus raw = "todo")
    ∧ (∀ s, raw = some s → pyToLower (pyStrip s) ∉ INTERNAL_TASK_PRIORITIES →
        normalizeInternalTaskPriority raw = "medium")
    ∧ (∀ s, raw = some s → pyToLower (pyStrip s) ∉ INTERNAL_TASK_STATUSES →
        normalizeInternalTaskStatus raw = "todo")
    ∧ (∀ t : InternalTask, t.priority = some (normalizeInternalTaskPriority raw) →
        (taskSortKey t).priorityRank ≤ 2)
    ∧ (∀ t : InternalTask, t.status = some (normalizeInternalTaskStatus raw) →
        (taskSortKey t).statusRank ≤ 3) := by
  have hpmem : normalizeInternalTaskPriority raw ∈ INTERNAL_TASK_PRIORITIES := by
    unfold normalizeInternalTaskPriority
    dsimp only
    split_ifs with h
    · exact h
    · decide
  have hsmem : normalizeInternalTaskStatus raw ∈ INTERNAL_TASK_STATUSES := by
    unfold normalizeInternalTaskStatus
    dsimp only
    split_ifs with h
    · exact h
    · decide
  refine ⟨hpmem, hsmem, fun h => ?_, fun s h hn => ?_, fun s h hn => ?_,
    fun t ht => ?_, fun t ht => ?_⟩
  · subst h
    constructor <;> decide
  · subst h
    unfold normalizeInternalTaskPriority
    dsimp only
    split_ifs with h1 h2
    · decide
    · rfl
    · rfl
  · subst h
    unfold normalizeInternalTaskStatus
    dsimp only
    split_ifs with h1 h2
    · decide
    · rfl
    · rfl
  · have hp : normalizeInternalTaskPriority raw = "high"
        ∨ normalizeInternalTaskPriority raw = "medium"
        ∨ normalizeInternalTaskPriority raw = "low" := by
      simpa [INTERNAL_TASK_PRIORITIES] using hpmem
    rcases hp with h | h | h <;> rw [h] at ht <;>
      simp only [taskSortKey] <;> rw [ht] <;> decide
  · have hs : normalizeInternalTaskStatus raw = "todo"
        ∨ normalizeInternalTaskStatus raw = "in-progress"
        ∨ normalizeInternalTaskStatus raw = "blocked"
        ∨ normalizeInternalTaskStatus raw = "done" := by
      simpa [INTERNAL_TASK_STATUSES] using hsmem
    rcases hs with h | h | h | h <;> rw [h] at ht <;>
      simp only [taskSortKey] <;> rw [ht] <;> decide

/-- Witness for C9 at a concrete unrecognized input: `" Urgent "` normalizes
to `"medium"`. -/
theorem claim_C9_normalizers_total_witness :
    normalizeInternalTaskPriority (some " Urgent ") = "medium" :=
  (claim_C9_normalizers_total (some " Urgent ")).2.2.2.1 " Urgent " rfl (by decide)

/-- C2: The flattened cross-project priority-queue view contains exactly the
tasks whose status is not `"done"` (a done task is excluded entirely, any
other task is listed), and orders them by the same key family as the nested
view, slightly reordered: priority rank first, then due date, then status
rank (demoted behind the due date), then the creation-timestamp tie-break. -/
theorem claim_C2_priority_queue (tasks : List InternalTask) :
    (∀ t, t ∈ internalTodosQueueTasks none tasks ↔ (t ∈ tasks ∧ t.is_done = false))
    ∧ List.Pairwise (fun a b => QueueSortKey.le (queueSortKey a) (queueSortKey b) = true)
        (internalTodosQueueTasks none tasks) := by
  constructor
  · intro t
    unfold internalTodosQueueTasks
    rw [List.mem_mergeSort, List.mem_filter]
    simp [queueAdmits]
  · exact List.sorted_mergeSort queueTaskLe_trans
      (fun a b => by rw [Bool.or_eq_true]; exact queueTaskLe_total a b) _

/-- Witness for C2 at the scenario of the spec: with a done task and a
high-priority todo task in the collection, the queue lists the todo task and
excludes the done task entirely. -/
theorem claim_C2_priority_queue_witness :
    ({ id := some 2, status := some "todo", priority := some "high" } : InternalTask)
        ∈ internalTodosQueueTasks none
            [{ id := some 1, status := some "done" },
             { id := some 2, status := some "todo", priority := some "high" }]
    ∧ ({ id := some 1, status := some "done" } : InternalTask)
        ∉ internalTodosQueueTasks none
            [{ id := some 1, status := some "done" },
             { id := some 2, status := some "todo", priority := some "high" }] := by
  constructor
  · exact ((claim_C2_priority_queue _).1 _).mpr ⟨by decide, by decide⟩
  · intro h
    exact absurd (((claim_C2_priority_queue _).1 _).mp h).2 (by decide)

theorem mem_normalizeTagsAux (chunks : List String) :
    ∀ seen t, t ∈ normalizeTagsAux chunks seen →
      t.isEmpty = false ∧ t ∉ seen
        ∧ ∃ chunk ∈ chunks, t = normalizeResourceTagChunk chunk := by
  induction chunks with
  | nil =>
    intro seen t h
    simp [normalizeTagsAux] at h
  | cons c rest ih =>
    intro seen t h
    unfold normalizeTagsAux at h
    dsimp only at h
    split_ifs at h with hskip
    · obtain ⟨h1, h2, chunk, hc, he⟩ := ih seen t h
      exact ⟨h1, h2, chunk, List.mem_cons_of_mem _ hc, he⟩
    · simp only [Bool.or_eq_true, decide_eq_true_eq, not_or, Bool.not_eq_true] at hskip
      rcases List.mem_cons.mp h with rfl | hmem
      · exact ⟨hskip.1, hskip.2, c, List.mem_cons_self _ _, rfl⟩
      · obtain ⟨h1, h2, chunk, hc, he⟩ := ih _ t hmem
        exact ⟨h1, fun hs => h2 (List.mem_cons_of_mem _ hs),
          chunk, List.mem_cons_of_mem _ hc, he⟩

theorem nodup_normalizeTagsAux (chunks : List String) :
    ∀ seen, (normalizeTagsAux chunks seen).Nodup := by
  induction chunks with
  | nil =>
    intro seen
    simp [normalizeTagsAux]
  | cons c rest ih =>
    intro seen
    unfold normalizeTagsAux
    dsimp only
    split_ifs with hskip
    · exact ih seen
    · rw [List.nodup_cons]
      refine ⟨fun hmem => ?_, ih _⟩
      exact (mem_normalizeTagsAux rest _ _ hmem).2.1 (List.mem_cons_self _ _)

/-- C7: Tag-list normalization lowercases each tag, collapses internal
whitespace to single spaces, strips leading hash characters, drops empty
results and de-duplicates case-insensitively preserving first occurrence:
every emitted tag is non-empty and is the chunk normalization (lowercase,
whitespace collapse, hash strip) of some separator-split chunk of the input,
the output has no duplicates, and the input `"qa, QA, Runbook"` normalizes
to exactly `["qa", "runbook"]`. -/
theorem claim_C7_tag_normalization (raw : Option String) :
    (∀ t ∈ normalizeResourceTags raw, t.isEmpty = false
      ∧ ∃ s, raw = some s ∧ ∃ chunk ∈ reSplitSeparators s, t = normalizeResourceTagChunk chunk)
    ∧ (normalizeResourceTags raw).Nodup
    ∧ normalizeResourceTags (some "qa, QA, Runbook") = ["qa", "runbook"] := by
  refine ⟨?_, ?_, by decide⟩
  · intro t ht
    cases raw with
    | none => simp [normalizeResourceTags] at ht
    | some s =>
      unfold normalizeResourceTags at ht
      dsimp only at ht
      split_ifs at ht with hemp
      · simp at ht
      · obtain ⟨h1, _, chunk, hc, he⟩ := mem_normalizeTagsAux (reSplitSeparators s) [] t ht
        exact ⟨h1, s, rfl, chunk, hc, he⟩
  · cases raw with
    | none => simp [normalizeResourceTags]
    | some s =>
      unfold normalizeResourceTags
      dsimp only
      split_ifs
      · simp
      · exact nodup_normalizeTagsAux _ _

/-- Witness for C7 at a concrete input with duplicate, mixed-case and
hash-decorated tags. -/
theorem claim_C7_tag_normalization_witness :
    normalizeResourceTags (some "qa, QA, Runbook") = ["qa", "runbook"] :=
  (claim_C7_tag_normalization none).2.2

theorem resourceIsLinked_true_iff (r : InternalResource) :
    resourceIsLinked r = true ↔ (r.projects ≠ [] ∨ r.tasks ≠ []) := by
  unfold resourceIsLinked
  cases r.projects <;> cases r.tasks <;> simp

theorem resourceIsLinked_false_iff (r : InternalResource) :
    resourceIsLinked r = false ↔ (r.projects = [] ∧ r.tasks = []) := by
  unfold resourceIsLinked
  cases r.projects <;> cases r.tasks <;> simp

theorem resourcePasses_linked (q cat tag : String) (proj : Option Int) (r : InternalResource) :
    resourcePassesFilters q cat tag "linked" proj r =
      (resourcePassesFilters q cat tag "all" proj r && resourceIsLinked r) := by
  unfold resourcePassesFilters
  dsimp only
  simp only [show (("linked" : String) == "linked") = true by decide,
    show (("linked" : String) == "unlinked") = false by decide,
    show (("linked" : String) == "untagged") = false by decide,
    show (("all" : String) == "linked") = false by decide,
    show (("all" : String) == "unlinked") = false by decide,
    show (("all" : String) == "untagged") = false by decide,
    Bool.false_and, Bool.true_and, Bool.not_false, Bool.and_true]
  cases resourceIsLinked r <;> simp [Bool.and_assoc, Bool.and_comm, Bool.and_left_comm]

theorem resourcePasses_unlinked (q cat tag : String) (proj : Option Int) (r : InternalResource) :
    resourcePassesFilters q cat tag "unlinked" proj r =
      (resourcePassesFilters q cat tag "all" proj r && !resourceIsLinked r) := by
  unfold resourcePassesFilters
  dsimp only
  simp only [show (("unlinked" : String) == "linked") = false by decide,
    show (("unlinked" : String) == "unlinked") = true by decide,
    show (("unlinked" : String) == "untagged") = false by decide,
    show (("all" : String) == "linked") = false by decide,
    show (("all" : String) == "unlinked") = false by decide,
    show (("all" : String) == "untagged") = false by decide,
    Bool.false_and, Bool.true_and, Bool.not_false, Bool.and_true]
  cases resourceIsLinked r <;> simp [Bool.and_assoc, Bool.and_comm, Bool.and_left_comm]

/-- C4: For every resource collection and every fixed choice of the other
facets (category, tag, project scope, text query), the resources passing
`state=linked` and the resources passing `state=unlinked` are disjoint and
their union is exactly the resources passing `state=all`: linked holds iff
the resource has at least one associated project or task, unlinked iff it
has neither, so the two states partition the `state=all` set exactly. -/
theorem claim_C4_resource_state_partition (resources : List InternalResource)
    (q cat tag : String) (proj : Option Int) (r : InternalResource) :
    ¬(r ∈ internalResourcesFiltered q cat tag "linked" proj resources
        ∧ r ∈ internalResourcesFiltered q cat tag "unlinked" proj resources)
    ∧ (r ∈ internalResourcesFiltered q cat tag "all" proj resources
        ↔ (r ∈ internalResourcesFiltered q cat tag "linked" proj resources
            ∨ r ∈ internalResourcesFiltered q cat tag "unlinked" proj resources))
    ∧ (r ∈ internalResourcesFiltered q cat tag "linked" proj resources →
        (r.projects ≠ [] ∨ r.tasks ≠ []))
    ∧ (r ∈ internalResourcesFiltered q cat tag "unlinked" proj resources →
        (r.projects = [] ∧ r.tasks = [])) := by
  unfold internalResourcesFiltered
  simp only [List.mem_filter, resourcePasses_linked, resourcePasses_unlinked,
    Bool.and_eq_true, Bool.not_eq_true']
  refine ⟨fun h => ?_, ?_, fun h => ?_, fun h => ?_⟩
  · rw [h.1.2.2] at h
    exact absurd h.2.2.2 (by decide)
  · cases hl : resourceIsLinked r <;> simp [hl]
  · exact (resourceIsLinked_true_iff r).mp h.2.2
  · exact (resourceIsLinked_false_iff r).mp h.2.2

/-- Witness for C4 at a concrete linked resource passing the `state=linked`
facet. -/
theorem claim_C4_resource_state_partition_witness :
    ({ title := "Doc", category := "ops", projects := [{ id := 3, name := "P" }] } : InternalResource).projects ≠ []
    ∨ ({ title := "Doc", category := "ops", projects := [{ id := 3, name := "P" }] } : InternalResource).tasks ≠ [] :=
  (claim_C4_resource_state_partition
    [{ title := "Doc", category := "ops", projects := [{ id := 3, name := "P" }] }]
    "" "all" "all" none
    { title := "Doc", category := "ops", projects := [{ id := 3, name := "P" }] }).2.2.1
    (by decide)

theorem roundHalfEven_one (n : Nat) : roundHalfEven n 1 = n := by
  unfold roundHalfEven
  simp [Nat.div_one, Nat.mod_one]

theorem roundHalfEven_mono (den : Nat) (hden : 0 < den) {n m : Nat} (h : n ≤ m) :
    roundHalfEven n den ≤ roundHalfEven m den := by
  have hq : n / den ≤ m / den := Nat.div_le_div_right h
  rcases eq_or_lt_of_le hq with heq | hlt
  · have e1 := Nat.div_add_mod n den
    have e2 := Nat.div_add_mod m den
    rw [← heq] at e2
    have hrm : m % den < den := Nat.mod_lt _ hden
    have hrn : n % den < den := Nat.mod_lt _ hden
    unfold roundHalfEven
    dsimp only
    rw [← heq]
    split_ifs <;> omega
  · have b1 : roundHalfEven n den ≤ n / den + 1 := by
      unfold roundHalfEven
      dsimp only
      split_ifs <;> omega
    have b2 : m / den ≤ roundHalfEven m den := by
      unfold roundHalfEven
      dsimp only
      split_ifs <;> omega
    omega

theorem roundHalfEven_mul_le (n den : Nat) (hden : 0 < den) :
    den * roundHalfEven n den ≤ n + den / 2 := by
  have e1 := Nat.div_add_mod n den
  have hr : n % den < den := Nat.mod_lt _ hden
  have hmul : den * (n / den + 1) = den * (n / den) + den := by ring
  unfold roundHalfEven
  dsimp only
  split_ifs <;> (try rw [hmul]) <;> omega

theorem le_roundHalfEven_mul (n den : Nat) (hden : 0 < den) :
    n ≤ den * roundHalfEven n den + den / 2 := by
  have e1 := Nat.div_add_mod n den
  have hr : n % den < den := Nat.mod_lt _ hden
  have hmul : den * (n / den + 1) = den * (n / den) + den := by ring
  unfold roundHalfEven
  dsimp only
  split_ifs <;> (try rw [hmul]) <;> omega

theorem bitLenAux_spec : ∀ fuel n, n < 2 ^ fuel → 0 < n →
    0 < bitLenAux fuel n ∧ 2 ^ (bitLenAux fuel n - 1) ≤ n ∧ n < 2 ^ bitLenAux fuel n := by
  intro fuel
  induction fuel with
  | zero =>
    intro n h1 h2
    simp only [pow_zero] at h1
    omega
  | succ fuel ih =>
    intro n h1 h2
    unfold bitLenAux
    rw [if_neg (by omega)]
    by_cases hn2 : n / 2 = 0
    · have hn1 : n = 1 := by omega
      subst hn1
      have hz : bitLenAux fuel (1 / 2) = 0 := by
        norm_num
        cases fuel <;> rfl
      rw [hz]
      norm_num
    · have hp1 : (2 : Nat) ^ (fuel + 1) = 2 * 2 ^ fuel := by
        rw [pow_succ]; ring
      have hlt : n / 2 < 2 ^ fuel := by omega
      obtain ⟨hb0, hb1, hb2⟩ := ih (n / 2) hlt (by omega)
      have hpow : (2 : Nat) ^ bitLenAux fuel (n / 2)
          = 2 * 2 ^ (bitLenAux fuel (n / 2) - 1) := by
        have hb' : bitLenAux fuel (n / 2) - 1 + 1 = bitLenAux fuel (n / 2) := by omega
        have hstep : (2 : Nat) ^ (bitLenAux fuel (n / 2) - 1 + 1)
            = 2 * 2 ^ (bitLenAux fuel (n / 2) - 1) := by
          rw [pow_succ]
          ring
        rw [hb'] at hstep
        exact hstep
      have hpow2 : (2 : Nat) ^ (bitLenAux fuel (n / 2) + 1)
          = 2 * 2 ^ bitLenAux fuel (n / 2) := by
        rw [pow_succ]; ring
      refine ⟨by omega, ?_, by omega⟩
      simp only [Nat.add_sub_cancel]
      omega

theorem bitLen_spec {n : Nat} (h128 : n < 2 ^ 128) (hn : 0 < n) :
    0 < bitLen n ∧ 2 ^ (bitLen n - 1) ≤ n ∧ n < 2 ^ bitLen n :=
  bitLenAux_spec 128 n h128 hn

theorem bitLen_mono {n m : Nat} (hn : 0 < n) (hm128 : m < 2 ^ 128) (h : n ≤ m) :
    bitLen n ≤ bitLen m := by
  have hn128 : n < 2 ^ 128 := lt_of_le_of_lt h hm128
  obtain ⟨-, hn1, -⟩ := bitLen_spec hn128 hn
  obtain ⟨-, -, hm2⟩ := bitLen_spec hm128 (by omega)
  by_contra hcon
  have hle : bitLen m ≤ bitLen n - 1 := by omega
  have hp : (2 : Nat) ^ bitLen m ≤ 2 ^ (bitLen n - 1) :=
    Nat.pow_le_pow_right (by norm_num) hle
  omega

theorem fpRound53_le_two_pow {n : Nat} (h128 : n < 2 ^ 128) (hn : 0 < n) :
    fpRound53 n ≤ 2 ^ bitLen n := by
  obtain ⟨hb0, hb1, hb2⟩ := bitLen_spec h128 hn
  unfold fpRound53
  by_cases hbs : bitLen n ≤ 53
  · rw [show bitLen n - 53 = 0 by omega, pow_zero, roundHalfEven_one, one_mul]
    omega
  · have h2s : (0 : Nat) < 2 ^ (bitLen n - 53) := by positivity
    have hub : 2 ^ (bitLen n - 53) * roundHalfEven n (2 ^ (bitLen n - 53))
        ≤ n + 2 ^ (bitLen n - 53) / 2 := roundHalfEven_mul_le n _ h2s
    have hsplit : (2 : Nat) ^ bitLen n
        = 2 ^ (bitLen n - 53) * 2 ^ (bitLen n - (bitLen n - 53)) := by
      rw [← pow_add]
      congr 1
      omega
    have hhalf : 2 ^ (bitLen n - 53) / 2 < 2 ^ (bitLen n - 53) :=
      Nat.div_lt_self h2s (by norm_num)
    have he : 2 ^ (bitLen n - 53) * (2 ^ (bitLen n - (bitLen n - 53)) + 1)
        = 2 ^ (bitLen n - 53) * 2 ^ (bitLen n - (bitLen n - 53)) + 2 ^ (bitLen n - 53) := by
      ring
    have h1 : 2 ^ (bitLen n - 53) * roundHalfEven n (2 ^ (bitLen n - 53))
        < 2 ^ (bitLen n - 53) * (2 ^ (bitLen n - (bitLen n - 53)) + 1) := by
      omega
    have h2 : roundHalfEven n (2 ^ (bitLen n - 53))
        ≤ 2 ^ (bitLen n - (bitLen n - 53)) := by
      have := Nat.lt_of_mul_lt_mul_left h1
      omega
    calc 2 ^ (bitLen n - 53) * roundHalfEven n (2 ^ (bitLen n - 53))
        ≤ 2 ^ (bitLen n - 53) * 2 ^ (bitLen n - (bitLen n - 53)) :=
          Nat.mul_le_mul_left _ h2
      _ = 2 ^ bitLen n := hsplit.symm

theorem two_pow_le_fpRound53 {m : Nat} (h128 : m < 2 ^ 128) (hm : 0 < m) :
    2 ^ (bitLen m - 1) ≤ fpRound53 m := by
  obtain ⟨hb0, hb1, hb2⟩ := bitLen_spec h128 hm
  unfold fpRound53
  by_cases hbs : bitLen m ≤ 53
  · rw [show bitLen m - 53 = 0 by omega, pow_zero, roundHalfEven_one, one_mul]
    exact hb1
  · have h2s : (0 : Nat) < 2 ^ (bitLen m - 53) := by positivity
    have hlb : m ≤ 2 ^ (bitLen m - 53) * roundHalfEven m (2 ^ (bitLen m - 53))
        + 2 ^ (bitLen m - 53) / 2 := le_roundHalfEven_mul m _ h2s
    have hsplit : (2 : Nat) ^ (bitLen m - 1)
        = 2 ^ (bitLen m - 53) * 2 ^ (bitLen m - 1 - (bitLen m - 53)) := by
      rw [← pow_add]
      congr 1
      omega
    have hhalf : 2 ^ (bitLen m - 53) / 2 < 2 ^ (bitLen m - 53) :=
      Nat.div_lt_self h2s (by norm_num)
    have he : 2 ^ (bitLen m - 53) * (roundHalfEven m (2 ^ (bitLen m - 53)) + 1)
        = 2 ^ (bitLen m - 53) * roundHalfEven m (2 ^ (bitLen m - 53))
          + 2 ^ (bitLen m - 53) := by
      ring
    have h1 : 2 ^ (bitLen m - 53) * 2 ^ (bitLen m - 1 - (bitLen m - 53))
        < 2 ^ (bitLen m - 53) * (roundHalfEven m (2 ^ (bitLen m - 53)) + 1) := by
      omega
    have h2 : 2 ^ (bitLen m - 1 - (bitLen m - 53))
        ≤ roundHalfEven m (2 ^ (bitLen m - 53)) := by
      have := Nat.lt_of_mul_lt_mul_left h1
      omega
    calc (2 : Nat) ^ (bitLen m - 1)
        = 2 ^ (bitLen m - 53) * 2 ^ (bitLen m - 1 - (bitLen m - 53)) := hsplit
      _ ≤ 2 ^ (bitLen m - 53) * roundHalfEven m (2 ^ (bitLen m - 53)) :=
          Nat.mul_le_mul_left _ h2

theorem fpRound53_mono {n m : Nat} (h128 : m < 2 ^ 128) (h : n ≤ m) :
    fpRound53 n ≤ fpRound53 m := by
  rcases Nat.eq_zero_or_pos n with rfl | hn
  · rw [show fpRound53 0 = 0 by decide]
    exact Nat.zero_le _
  · have hn128 : n < 2 ^ 128 := lt_of_le_of_lt h h128
    have hble := bitLen_mono hn h128 h
    rcases eq_or_lt_of_le hble with heq | hlt
    · unfold fpRound53
      rw [heq]
      exact Nat.mul_le_mul_left _ (roundHalfEven_mono _ (by positivity) h)
    · have hu := fpRound53_le_two_pow hn128 hn
      have hl := two_pow_le_fpRound53 h128 (by omega)
      have hp : (2 : Nat) ^ bitLen n ≤ 2 ^ (bitLen m - 1) :=
        Nat.pow_le_pow_right (by norm_num) (by omega)
      omega

theorem pctBinade_sound : ∀ k ∈ [8, 14, 20, 38, 48, 55, 67, 76, 82, 90],
    100 * 2 ^ 52 ≤ k * 2 ^ (52 + pctBinade k)
      ∧ k * 2 ^ (52 + pctBinade k) < 100 * 2 ^ 53 := by
  decide

theorem pyRoundFloatProduct_example : pyRoundFloatProduct 75 14 = 11 := by
  decide

theorem milestone_mono_of_fl_le (s d : Nat) (hd : d ≤ DATE_MAX) {k1 k2 : Nat}
    (hfl : floatPctNum k1 ≤ floatPctNum k2) (hb : floatPctNum k2 ≤ 2 ^ 57) :
    milestone s d k1 ≤ milestone s d k2 := by
  unfold milestone
  dsimp only
  have hspan : max (d - s) 1 ≤ DATE_MAX :=
    max_le (by omega) (by norm_num [DATE_MAX])
  have hprod : max (d - s) 1 * floatPctNum k2 < 2 ^ 128 := by
    calc max (d - s) 1 * floatPctNum k2 ≤ DATE_MAX * 2 ^ 57 := Nat.mul_le_mul hspan hb
      _ < 2 ^ 128 := by norm_num [DATE_MAX]
  have h1 : pyRoundFloatProduct (max (d - s) 1) k1 ≤ pyRoundFloatProduct (max (d - s) 1) k2 :=
    roundHalfEven_mono _ (by positivity)
      (fpRound53_mono hprod (Nat.mul_le_mul_left _ hfl))
  exact min_le_min (Nat.add_le_add_left (max_le_max (Nat.le_refl 1) h1) s) (Nat.le_refl d)

theorem milestone_le_due (s d k : Nat) : milestone s d k ≤ d := by
  unfold milestone
  dsimp only
  exact min_le_right _ _

theorem due_le_of_mem_phaseTasks (o ti pr : String) (pd : Nat) (subs : List (String × Nat))
    (d : Nat) (hpd : pd ≤ d) (hsubs : ∀ p ∈ subs, p.2 ≤ d) :
    ∀ t ∈ phaseTasks o ti pr pd subs, t.due_date ≤ d := by
  intro t ht
  unfold phaseTasks at ht
  rcases List.mem_cons.mp ht with rfl | hm
  · exact hpd
  · obtain ⟨p, hp, rfl⟩ := List.mem_map.mp hm
    exact hsubs p hp

/-- C5: For every project with a due date (a valid Python date, so its
ordinal is at most `date.max`'s), starter-plan generation creates exactly
4 top-level (parent) phase tasks, every milestone date it computes (parent
due dates and subtask due dates alike) never exceeds the project's due date
(it is clamped to it), and the computed milestone dates are monotonically
non-decreasing along the phase percentages 8%, 14%, 20%, 38%, 48%, 55%,
67%, 76%, 82%, 90%, up to the due date itself (100%). -/
theorem claim_C5_starter_plan (startOrd dueOrd timelineDays : Nat)
    (owner clientOwner : String) (hdue : dueOrd ≤ DATE_MAX) :
    ((createProjectStarterTasks startOrd (some dueOrd) timelineDays owner clientOwner).filter
        (fun t => !t.isSubtask)).length = 4
    ∧ (∀ t ∈ createProjectStarterTasks startOrd (some dueOrd) timelineDays owner clientOwner,
        t.due_date ≤ dueOrd)
    ∧ milestone startOrd dueOrd 8 ≤ milestone startOrd dueOrd 14
    ∧ milestone startOrd dueOrd 14 ≤ milestone startOrd dueOrd 20
    ∧ milestone startOrd dueOrd 20 ≤ milestone startOrd dueOrd 38
    ∧ milestone startOrd dueOrd 38 ≤ milestone startOrd dueOrd 48
    ∧ milestone startOrd dueOrd 48 ≤ milestone startOrd dueOrd 55
    ∧ milestone startOrd dueOrd 55 ≤ milestone startOrd dueOrd 67
    ∧ milestone startOrd dueOrd 67 ≤ milestone startOrd dueOrd 76
    ∧ milestone startOrd dueOrd 76 ≤ milestone startOrd dueOrd 82
    ∧ milestone startOrd dueOrd 82 ≤ milestone startOrd dueOrd 90
    ∧ milestone startOrd dueOrd 90 ≤ dueOrd := by
  refine ⟨?_, ?_,
    milestone_mono_of_fl_le _ _ hdue (by decide) (by decide),
    milestone_mono_of_fl_le _ _ hdue (by decide) (by decide),
    milestone_mono_of_fl_le _ _ hdue (by decide) (by decide),
    milestone_mono_of_fl_le _ _ hdue (by decide) (by decide),
    milestone_mono_of_fl_le _ _ hdue (by decide) (by decide),
    milestone_mono_of_fl_le _ _ hdue (by decide) (by decide),
    milestone_mono_of_fl_le _ _ hdue (by decide) (by decide),
    milestone_mono_of_fl_le _ _ hdue (by decide) (by decide),
    milestone_mono_of_fl_le _ _ hdue (by decide) (by decide),
    milestone_le_due _ _ _⟩
  · simp [createProjectStarterTasks, phaseTasks, List.filter]
  · intro t ht
    unfold createProjectStarterTasks at ht
    simp only [Option.getD_some, List.mem_append] at ht
    rcases ht with ((h | h) | h) | h
    · refine due_le_of_mem_phaseTasks _ _ _ _ _ _ (milestone_le_due _ _ _)
        (fun p hp => ?_) t h
      simp only [List.mem_cons, List.not_mem_nil, or_false] at hp
      rcases hp with rfl | rfl | rfl <;> exact milestone_le_due _ _ _
    · refine due_le_of_mem_phaseTasks _ _ _ _ _ _ (milestone_le_due _ _ _)
        (fun p hp => ?_) t h
      simp only [List.mem_cons, List.not_mem_nil, or_false] at hp
      rcases hp with rfl | rfl | rfl <;> exact milestone_le_due _ _ _
    · refine due_le_of_mem_phaseTasks _ _ _ _ _ _ (milestone_le_due _ _ _)
        (fun p hp => ?_) t h
      simp only [List.mem_cons, List.not_mem_nil, or_false] at hp
      rcases hp with rfl | rfl | rfl <;> exact milestone_le_due _ _ _
    · refine due_le_of_mem_phaseTasks _ _ _ _ _ _ (Nat.le_refl _)
        (fun p hp => ?_) t h
      simp only [List.mem_cons, List.not_mem_nil, or_false] at hp
      rcases hp with rfl | rfl
      · exact milestone_le_due _ _ _
      · exact Nat.le_refl _

/-- Witness for C5: the first milestone monotonicity conjunct at concrete
inputs, a project starting at day 100 and due at day 175 (75 days out, the
span where the float product `75 * 0.14` rounds up to 11). -/
theorem claim_C5_starter_plan_witness :
    milestone 100 175 8 ≤ milestone 100 175 14 :=
  (claim_C5_starter_plan 100 175 30 "Owner" "Client" (by decide)).2.2.1

/-- C3: For every two distinct users, resolving the direct channel from
either side yields the same channel: the lookup/creation key is the
canonical ordered pair (min, max) of the two ids, so the resolver finds the
same existing channel regardless of initiation order, and on creation the
channel's member set is exactly the two users with the initiating user
recorded as creator; a channel created from one side is found (not
re-created) from the other. -/
theorem claim_C3_direct_channel (channels : List InternalMessageChannel) (a b : Int)
    (_hab : a ≠ b) :
    ((getOrCreateDirectChannel channels a b).2 = false →
      getOrCreateDirectChannel channels b a = getOrCreateDirectChannel channels a b)
    ∧ (∀ c, getOrCreateDirectChannel channels a b = (c, true) →
        c.members = [a, b]
        ∧ (∀ u, u ∈ c.members ↔ (u = a ∨ u = b))
        ∧ c.created_by_id = some a
        ∧ c.channel_type = "direct"
        ∧ c.direct_user_low_id = some (min a b)
        ∧ c.direct_user_high_id = some (max a b)
        ∧ getOrCreateDirectChannel (channels ++ [c]) b a = (c, false)
        ∧ (∀ c2, getOrCreateDirectChannel channels b a = (c2, true) →
            c2.channel_type = c.channel_type
            ∧ c2.direct_user_low_id = c.direct_user_low_id
            ∧ c2.direct_user_high_id = c.direct_user_high_id
            ∧ (∀ u, u ∈ c2.members ↔ u ∈ c.members)
            ∧ c2.created_by_id = some b)) := by
  cases hf : channels.find? (fun c =>
      c.channel_type == "direct" && c.direct_user_low_id == some (min a b)
        && c.direct_user_high_id == some (max a b)) with
  | some ex =>
    constructor
    · intro _
      simp [getOrCreateDirectChannel, min_comm b a, max_comm b a, hf]
    · intro c hc
      simp [getOrCreateDirectChannel, hf] at hc
  | none =>
    constructor
    · intro h2
      simp [getOrCreateDirectChannel, hf] at h2
    · intro c hc
      simp only [getOrCreateDirectChannel, hf] at hc
      obtain ⟨hc1, -⟩ := Prod.mk.injEq .. ▸ hc
      subst hc1
      refine ⟨rfl, ?_, rfl, rfl, rfl, rfl, ?_, ?_⟩
      · intro u
        simp
      · simp only [getOrCreateDirectChannel, min_comm b a, max_comm b a,
          List.find?_append, hf, Option.none_or]
        simp
      · intro c2 hc2
        simp only [getOrCreateDirectChannel, min_comm b a, max_comm b a, hf] at hc2
        obtain ⟨hc2a, -⟩ := Prod.mk.injEq .. ▸ hc2
        subst hc2a
        refine ⟨rfl, rfl, rfl, ?_, rfl⟩
        intro u
        simp
        tauto

/-- Witness for C3 at users 2 and 1 on an empty channel table: the created
channel's member list is exactly the two users. -/
theorem claim_C3_direct_channel_witness :
    ({ channel_type := "direct", direct_user_low_id := some 1,
       direct_user_high_id := some 2, created_by_id := some 2,
       members := [2, 1] } : InternalMessageChannel).members = [2, 1] :=
  ((claim_C3_direct_channel [] 2 1 (by decide)).2 _ rfl).1

theorem updateFirst_length (p : α → Bool) (f : α → α) (l : List α) :
    (updateFirst p f l).length = l.length := by
  induction l with
  | nil => rfl
  | cons x xs ih =>
    unfold updateFirst
    split_ifs <;> simp [ih]

theorem find?_updateFirst (p : α → Bool) (f : α → α) (l : List α) (x : α)
    (hfind : l.find? p = some x) (hpf : p (f x) = true) :
    (updateFirst p f l).find? p = some (f x) := by
  induction l with
  | nil => simp at hfind
  | cons y ys ih =>
    by_cases hy : p y
    · rw [List.find?_cons_of_pos _ hy] at hfind
      injection hfind with h
      subst h
      unfold updateFirst
      simp only [hy, if_true]
      exact List.find?_cons_of_pos _ hpf
    · rw [List.find?_cons_of_neg _ hy] at hfind
      unfold updateFirst
      simp only [hy, if_false, Bool.false_eq_true]
      rw [List.find?_cons_of_neg _ hy]
      exact ih hfind

theorem canAccess_false_of_nonmember (ch : InternalMessageChannel) (userId : Int)
    (h1 : ch.channel_type ≠ "project") (h2 : userId ∉ ch.members) :
    internalUserCanAccessChannel ch userId = false := by
  unfold internalUserCanAccessChannel
  rw [if_neg (by simpa using h1)]
  rw [List.any_eq_false]
  intro m hm
  simp only [beq_iff_eq]
  intro hme
  exact h2 (hme ▸ hm)

theorem canAccess_true_of_member (ch : InternalMessageChannel) (userId : Int)
    (h : userId ∈ ch.members) :
    internalUserCanAccessChannel ch userId = true := by
  unfold internalUserCanAccessChannel
  split_ifs with hp
  · rfl
  · rw [List.any_eq_true]
    exact ⟨userId, h, by simp⟩

/-- C6: Posting a message to a direct or group channel succeeds iff the
posting user is a registered member of that channel (a project channel is
postable by any portal user): a non-member's post is rejected with no
message created and the channel table unchanged, while a member's post with
a non-empty body of at most 3000 characters to an existing channel appends
exactly one message to that channel, leaves the table's size unchanged and
stamps the channel's `updated_at` with the current time. -/
theorem claim_C6_messages_post (channels : List InternalMessageChannel) (userId cid : Int)
    (rawBody : String) (now : Nat) (ch : InternalMessageChannel)
    (hcid : 0 < cid)
    (hfind : channels.find? (fun c => c.id == cid) = some ch) :
    ((ch.channel_type ≠ "project" ∧ userId ∉ ch.members) →
      internalMessagesPost channels userId (some cid) rawBody now = (channels, false))
    ∧ ((pyStrip rawBody).isEmpty = false → (pyStrip rawBody).length ≤ 3000 →
      ch.channel_type ≠ "project" →
      ((internalMessagesPost channels userId (some cid) rawBody now).2 = true
        ↔ userId ∈ ch.members))
    ∧ ((pyStrip rawBody).isEmpty = false → (pyStrip rawBody).length ≤ 3000 →
      (ch.channel_type = "project" ∨ userId ∈ ch.members) →
      (internalMessagesPost channels userId (some cid) rawBody now =
        (updateFirst (fun c => c.id == cid)
          (fun c => { c with
            messages := c.messages
              ++ [{ sender_id := userId, body := pyStrip rawBody, created_at := now }],
            updated_at := now }) channels, true)
       ∧ (internalMessagesPost channels userId (some cid) rawBody now).1.find?
            (fun c => c.id == cid) =
          some { ch with
            messages := ch.messages
              ++ [{ sender_id := userId, body := pyStrip rawBody, created_at := now }],
            updated_at := now }
       ∧ (internalMessagesPost channels userId (some cid) rawBody now).1.length
           = channels.length)) := by
  have hparse : parsePositiveInt (some cid) = some cid := by
    simp [parsePositiveInt, hcid]
  have hbase : ∀ r : List InternalMessageChannel × Bool,
      (pyStrip rawBody).isEmpty = false → (pyStrip rawBody).length ≤ 3000 →
      internalMessagesPost channels userId (some cid) rawBody now =
        (if internalUserCanAccessChannel ch userId then
          (updateFirst (fun c => c.id == cid)
            (fun c => { c with
              messages := c.messages
                ++ [{ sender_id := userId, body := pyStrip rawBody, created_at := now }],
              updated_at := now }) channels, true)
        else (channels, false)) := by
    intro _ hbe hlen
    unfold internalMessagesPost
    rw [hparse]
    dsimp only
    rw [if_neg (by simp [hbe]), if_neg (by omega), hfind]
  refine ⟨fun ⟨h1, h2⟩ => ?_, fun hbe hlen hnp => ?_, fun hbe hlen hacc => ?_⟩
  · unfold internalMessagesPost
    rw [hparse]
    dsimp only
    split_ifs with hbe hlen
    · rfl
    · rfl
    · rw [hfind]
      dsimp only
      rw [canAccess_false_of_nonmember ch userId h1 h2]
      simp
  · rw [hbase (channels, false) hbe hlen]
    constructor
    · intro hres
      by_contra hmem
      by_cases hp : ch.channel_type = "project"
      · exact hnp hp
      · rw [if_neg (by rw [canAccess_false_of_nonmember ch userId hp hmem]; simp)] at hres
        simp at hres
    · intro hmem
      rw [if_pos (by rw [canAccess_true_of_member ch userId hmem])]
  · have hacc2 : internalUserCanAccessChannel ch userId = true := by
      rcases hacc with hp | hm
      · unfold internalUserCanAccessChannel
        rw [if_pos (by simp [hp])]
      · exact canAccess_true_of_member ch userId hm
    have heq := hbase (channels, false) hbe hlen
    rw [if_pos (by rw [hacc2])] at heq
    refine ⟨heq, ?_, ?_⟩
    · rw [heq]
      exact find?_updateFirst (fun c => c.id == cid)
        (fun c => { c with
          messages := c.messages
            ++ [{ sender_id := userId, body := pyStrip rawBody, created_at := now }],
          updated_at := now }) channels ch hfind (by simpa using List.find?_some hfind)
    · rw [heq]
      exact updateFirst_length _ _ channels

/-- Witness for C6 at a concrete group channel: the member with id 5 posts
successfully and the table keeps its single channel. -/
theorem claim_C6_messages_post_witness :
    (internalMessagesPost
        [{ id := 1, channel_type := "group", members := [5, 6] }]
        5 (some 1) " hello " 10).1.length =
      ([{ id := 1, channel_type := "group", members := [5, 6] }] :
        List InternalMessageChannel).length :=
  (claim_C6_messages_post
      [{ id := 1, channel_type := "group", members := [5, 6] }]
      5 1 " hello " 10
      { id := 1, channel_type := "group", members := [5, 6] }
      (by decide) (by decide)).2.2 (by decide) (by decide)
      (Or.inr (by decide)) |>.2.2

theorem mem_parseIntListAux (l : List (Option Int)) :
    ∀ seen v, v ∈ parseIntListAux l seen → 0 < v ∧ v ∉ seen := by
  induction l with
  | nil =>
    intro seen v h
    simp [parseIntListAux] at h
  | cons o rest ih =>
    intro seen v h
    cases o with
    | none => exact ih seen v h
    | some w =>
      unfold parseIntListAux at h
      split_ifs at h with hskip
      · exact ih seen v h
      · simp only [Bool.or_eq_true, decide_eq_true_eq, not_or, not_le] at hskip
        rcases List.mem_cons.mp h with rfl | hmem
        · exact ⟨hskip.1, hskip.2⟩
        · obtain ⟨hpos, hns⟩ := ih _ v hmem
          exact ⟨hpos, fun hs => hns (List.mem_cons_of_mem _ hs)⟩

theorem nodup_parseIntListAux (l : List (Option Int)) :
    ∀ seen, (parseIntListAux l seen).Nodup := by
  induction l with
  | nil =>
    intro seen
    simp [parseIntListAux]
  | cons o rest ih =>
    intro seen
    cases o with
    | none => exact ih seen
    | some w =>
      unfold parseIntListAux
      split_ifs with hskip
      · exact ih seen
      · rw [List.nodup_cons]
        refine ⟨fun hmem => ?_, ih _⟩
        exact (mem_parseIntListAux rest _ _ hmem).2 (List.mem_cons_self _ _)

theorem covers_of_nodup_subset_length_le {l1 l2 : List Int}
    (h1 : l1.Nodup) (h2 : l2.Nodup) (hsub : ∀ x ∈ l1, x ∈ l2)
    (hlen : l2.length ≤ l1.length) : ∀ x ∈ l2, x ∈ l1 := by
  have hsubF : l1.toFinset ⊆ l2.toFinset := by
    intro x hx
    rw [List.mem_toFinset] at hx ⊢
    exact hsub x hx
  have hcard1 : l1.toFinset.card = l1.length := List.toFinset_card_of_nodup h1
  have hcard2 : l2.toFinset.card = l2.length := List.toFinset_card_of_nodup h2
  have heqF : l1.toFinset = l2.toFinset :=
    Finset.eq_of_subset_of_card_le hsubF (by omega)
  intro x hx
  rw [← List.mem_toFinset, ← heqF, List.mem_toFinset] at hx
  exact hx

/-- C10: Every group channel created through the group-creation endpoint
includes the creating user in its member set: the current user's id is
unconditionally added to the submitted member ids before validation, so for
every accepted request the creator is a member of the resulting channel and
can therefore access it. -/
theorem claim_C10_group_creator_member (users : List InternalUser) (currentUserId : Int)
    (rawName : String) (rawMemberIds : List (Option Int)) (ch : InternalMessageChannel)
    (husers : (users.map InternalUser.id).Nodup)
    (hcreate : internalMessagesCreateGroup users currentUserId rawName rawMemberIds = some ch) :
    currentUserId ∈ (parseIntList rawMemberIds).insert currentUserId
    ∧ currentUserId ∈ ch.members
    ∧ internalUserCanAccessChannel ch currentUserId = true := by
  unfold internalMessagesCreateGroup at hcreate
  dsimp only at hcreate
  split_ifs at hcreate with hn1 hn2 hn3 hn4
  injection hcreate with hch
  subst hch
  have hlen := not_ne_iff.mp hn4
  set memberIds := (parseIntList rawMemberIds).insert currentUserId with hmids
  set F := users.filter (fun u => memberIds.contains u.id && u.is_active) with hF
  have hperm : (F.insertionSort (fun a b => pyStrLe a.full_name b.full_name = true)).Perm F :=
    List.perm_insertionSort _ _
  have hpermMap : ((F.insertionSort (fun a b => pyStrLe a.full_name b.full_name = true)).map
      (fun u => u.id)).Perm (F.map (fun u => u.id)) := hperm.map _
  have hFnodup : (F.map (fun u => u.id)).Nodup := by
    have hsl : (F.map (fun u => u.id)).Sublist (users.map (fun u => u.id)) :=
      List.Sublist.map _ (List.filter_sublist users)
    exact List.Nodup.sublist hsl husers
  have hmemcur : currentUserId ∈ memberIds := List.mem_insert_self _ _
  have hmidsNodup : memberIds.Nodup :=
    List.Nodup.insert (nodup_parseIntListAux rawMemberIds [])
  have hsub : ∀ x ∈ F.map (fun u => u.id), x ∈ memberIds := by
    intro x hx
    obtain ⟨u, hu, rfl⟩ := List.mem_map.mp hx
    have hcond := (List.mem_filter.mp hu).2
    simp only [Bool.and_eq_true] at hcond
    simpa using hcond.1
  have hlenF : memberIds.length ≤ (F.map (fun u => u.id)).length := by
    have h1 : (F.insertionSort (fun a b => pyStrLe a.full_name b.full_name = true)).length
        = F.length := hperm.length_eq
    simp only [List.length_map]
    omega
  have hcover := covers_of_nodup_subset_length_le hFnodup hmidsNodup hsub
    hlenF currentUserId hmemcur
  have hmem2 : currentUserId ∈
      (F.insertionSort (fun a b => pyStrLe a.full_name b.full_name = true)).map
        (fun u => u.id) :=
    (hpermMap.mem_iff).mpr hcover
  refine ⟨hmemcur, hmem2, ?_⟩
  unfold internalUserCanAccessChannel
  rw [if_neg (by simp)]
  rw [List.any_eq_true]
  exact ⟨currentUserId, hmem2, by simp⟩

/-- Witness for C10: a concrete accepted group-creation request whose member
list contains the creator. -/
theorem claim_C10_group_creator_member_witness :
    (1 : Int) ∈ (parseIntList [some 2]).insert 1 :=
  (claim_C10_group_creator_member
      [{ id := 1, full_name := "A" }, { id := 2, full_name := "B" }]
      1 "Team" [some 2]
      { channel_type := "group", name := some "Team", created_by_id := some 1,
        members := [1, 2] }
      (by decide) (by decide)).1

end ElfAI
